import Mathlib

/-!
Verification of the access-log generator (src/main.rs).

The program builds batches of synthetic access-log rows: a seeded RNG
drives a nested generation of hosts, services, pods, containers and rows,
appending values into per-column builders that are finalized into record
batches bound to a fixed 14-field schema.

The RNG (rand::StdRng, an external collaborator) is modelled abstractly as
a raw stream of natural numbers together with a position; each primitive
draw of the rand API consumes one stream value and maps it into the
requested domain. This keeps the draw ORDER and draw COUNT of the source
explicit, which is what the ordering and determinism claims are about.
-/

namespace AccessLog

/-- Abstract deterministic RNG: a raw stream and a current position.
Models a rand::StdRng instance; each primitive draw consumes one raw
value. -/
structure Rng where
  stream : Nat → Nat
  pos : Nat

/-- Consume one raw draw. -/
def Rng.nextRaw (r : Rng) : Nat × Rng :=
  (r.stream r.pos, ⟨r.stream, r.pos + 1⟩)

/-- Model of rng.gen_range(lo..hi): one draw, mapped into [lo, hi). -/
def Rng.genRange (r : Rng) (lo hi : Nat) : Nat × Rng :=
  let (v, r1) := r.nextRaw
  (lo + v % (hi - lo), r1)

/-- Model of rng.gen::<u8>(): one draw, reduced mod 2^8. -/
def Rng.genU8 (r : Rng) : Nat × Rng :=
  let (v, r1) := r.nextRaw
  (v % 256, r1)

/-- Signed 32-bit reinterpretation of a raw draw, used to model
rng.gen::<i32>() (a full-range random 32-bit signed integer). -/
def i32OfRaw (v : Nat) : Int :=
  if v % 2 ^ 32 < 2 ^ 31 then ((v % 2 ^ 32 : Nat) : Int)
  else ((v % 2 ^ 32 : Nat) : Int) - 2 ^ 32

/-- Model of rng.gen::<i32>(): one draw, reinterpreted as an i32. -/
def Rng.genI32 (r : Rng) : Int × Rng :=
  let (v, r1) := r.nextRaw
  (i32OfRaw v, r1)

/-- Model of rng.gen_bool(num/den): one draw, true with the given odds. -/
def Rng.genBool (r : Rng) (num den : Nat) : Bool × Rng :=
  let (v, r1) := r.nextRaw
  (decide (v % den < num), r1)

/-- Character loop of random_string: k draws from gen_range(97..122)
(the byte range of lowercase letters in the source), each turned into a
character. -/
def randomChars (r : Rng) : Nat → List Char × Rng
  | 0 => ([], r)
  | k + 1 =>
    let (v, r1) := r.genRange 97 122
    let (cs, r2) := randomChars r1 k
    (Char.ofNat v :: cs, r2)

/-- random_string from the source: draw a length in [lo, hi), then that
many random lowercase characters. -/
def random_string (r : Rng) (lo hi : Nat) : String × Rng :=
  let (len, r1) := r.genRange lo hi
  let (cs, r2) := randomChars r1 len
  (⟨cs⟩, r2)

/-- Loop of generate_sorted_strings before sorting: draw count random
strings in order. -/
def randomStrings (r : Rng) (lo hi : Nat) : Nat → List String × Rng
  | 0 => ([], r)
  | k + 1 =>
    let (s, r1) := random_string r lo hi
    let (rest, r2) := randomStrings r1 lo hi k
    (s :: rest, r2)

/-- generate_sorted_strings from the source: draw count random strings,
then sort them (sort_unstable; extensionally a sort, modelled with
mergeSort). -/
def generate_sorted_strings (r : Rng) (count lo hi : Nat) : List String × Rng :=
  let (strs, r1) := randomStrings r lo hi count
  (strs.mergeSort (fun a b => decide (a ≤ b)), r1)

/-- Arrow data types used by the schema. -/
inductive DataType where
  | utf8
  | timestampMicrosecond
  | int32
  | uint16
deriving DecidableEq, Repr

/-- One schema field: name, data type, nullability. -/
structure SchemaField where
  name : String
  dtype : DataType
  nullable : Bool
deriving DecidableEq, Repr

/-- A schema is an ordered list of fields. -/
abbrev Schema := List SchemaField

/-- A finished column: typed list of optional values (None models an
absent / null entry). -/
inductive Column where
  | utf8Col : List (Option String) → Column
  | tsMicroCol : List (Option Int) → Column
  | int32Col : List (Option Int) → Column
  | uint16Col : List (Option Nat) → Column
deriving DecidableEq, Repr

def Column.dtype : Column → DataType
  | .utf8Col _ => .utf8
  | .tsMicroCol _ => .timestampMicrosecond
  | .int32Col _ => .int32
  | .uint16Col _ => .uint16

def Column.length : Column → Nat
  | .utf8Col l => l.length
  | .tsMicroCol l => l.length
  | .int32Col l => l.length
  | .uint16Col l => l.length

/-- Number of absent entries in a column. -/
def Column.nullCount : Column → Nat
  | .utf8Col l => (l.filter (·.isNone)).length
  | .tsMicroCol l => (l.filter (·.isNone)).length
  | .int32Col l => (l.filter (·.isNone)).length
  | .uint16Col l => (l.filter (·.isNone)).length

/-- A finalized record batch: a schema and its columns. -/
structure RecordBatch where
  schema : Schema
  columns : List Column
deriving DecidableEq, Repr

/-- Validation performed by RecordBatch::try_new: the column count matches
the schema, all columns have one common length, each column type matches
its field, and a non-nullable field has no absent entry. -/
def RecordBatch.tryNew (schema : Schema) (cols : List Column) : Option RecordBatch :=
  if (cols.length = schema.length)
      ∧ (∀ c ∈ cols, c.length = (cols.headD (Column.utf8Col [])).length)
      ∧ (∀ p ∈ schema.zip cols,
          p.1.dtype = p.2.dtype ∧ (p.1.nullable = false → p.2.nullCount = 0))
  then some ⟨schema, cols⟩ else none

/-- The column builders of BatchBuilder: one growable list per schema
field, in the declaration order of the source struct. -/
structure BatchBuilder where
  service : List (Option String)
  host : List (Option String)
  pod : List (Option String)
  container : List (Option String)
  image : List (Option String)
  time : List (Option Int)
  client_addr : List (Option String)
  request_duration : List (Option Int)
  request_user_agent : List (Option String)
  request_method : List (Option String)
  request_host : List (Option String)
  request_bytes : List (Option Int)
  response_bytes : List (Option Int)
  response_status : List (Option Nat)
deriving DecidableEq, Repr

/-- BatchBuilder::default(): all builders empty. -/
def BatchBuilder.empty : BatchBuilder :=
  ⟨[], [], [], [], [], [], [], [], [], [], [], [], [], []⟩

/-- BatchBuilder::schema(): the fixed 14-field schema of the source. -/
def BatchBuilder.schema : Schema :=
  [⟨"service", .utf8, true⟩,
   ⟨"host", .utf8, false⟩,
   ⟨"pod", .utf8, false⟩,
   ⟨"container", .utf8, false⟩,
   ⟨"image", .utf8, false⟩,
   ⟨"time", .timestampMicrosecond, false⟩,
   ⟨"client_addr", .utf8, true⟩,
   ⟨"request_duration_ns", .int32, false⟩,
   ⟨"request_user_agent", .utf8, true⟩,
   ⟨"request_method", .utf8, true⟩,
   ⟨"request_host", .utf8, true⟩,
   ⟨"request_bytes", .int32, true⟩,
   ⟨"response_bytes", .int32, true⟩,
   ⟨"response_status", .uint16, false⟩]

/-- BatchBuilder::append_row: append the six context values, then perform
the per-row random draws in source order (client_addr from four u8 draws,
request_duration, request_user_agent, request_method, the computed
request_host, the two optional byte counters, response_status). -/
def BatchBuilder.append_row (b : BatchBuilder) (r : Rng)
    (host pod service container image : String) (time : Int) :
    BatchBuilder × Rng :=
  let methods := ["GET", "PUT", "POST", "HEAD", "PATCH", "DELETE"]
  let status := [200, 204, 400, 503, 403]
  let b := { b with service := b.service ++ [some service] }
  let b := { b with host := b.host ++ [some host] }
  let b := { b with pod := b.pod ++ [some pod] }
  let b := { b with container := b.container ++ [some container] }
  let b := { b with image := b.image ++ [some image] }
  let b := { b with time := b.time ++ [some time] }
  let (a0, r) := r.genU8
  let (a1, r) := r.genU8
  let (a2, r) := r.genU8
  let (a3, r) := r.genU8
  let b := { b with client_addr := b.client_addr ++
    [some (toString a0 ++ "." ++ toString a1 ++ "." ++ toString a2 ++ "." ++ toString a3)] }
  let (d, r) := r.genI32
  let b := { b with request_duration := b.request_duration ++ [some d] }
  let (ua, r) := random_string r 20 100
  let b := { b with request_user_agent := b.request_user_agent ++ [some ua] }
  let (mi, r) := r.genRange 0 methods.length
  let b := { b with request_method := b.request_method ++ [some (methods.getD mi "")] }
  let b := { b with request_host := b.request_host ++
    [some ("https://" ++ service ++ ".mydomain.com")] }
  let (rbFlag, r) := r.genBool 9 10
  let (rb, r) := if rbFlag then
      let (v, r1) := r.genI32
      ((some v : Option Int), r1)
    else (none, r)
  let b := { b with request_bytes := b.request_bytes ++ [rb] }
  let (sbFlag, r) := r.genBool 9 10
  let (sb, r) := if sbFlag then
      let (v, r1) := r.genI32
      ((some v : Option Int), r1)
    else (none, r)
  let b := { b with response_bytes := b.response_bytes ++ [sb] }
  let (si, r) := r.genRange 0 status.length
  let b := { b with response_status := b.response_status ++ [some (status.getD si 0)] }
  (b, r)

/-- Inner row loop of BatchBuilder::append: for each index i of the list,
append one row with timestamp i times 1024 microseconds. -/
def appendRows (b : BatchBuilder) (r : Rng)
    (host pod service container image : String) :
    List Nat → BatchBuilder × Rng
  | [] => (b, r)
  | i :: rest =>
    let (b1, r1) := b.append_row r host pod service container image ((i : Int) * 1024)
    appendRows b1 r1 host pod service container image rest

/-- The container name format of the source: service, the literal
_container_, and the 0-based container index. -/
def containerName (service : String) (container_idx : Nat) : String :=
  service ++ "_container_" ++ toString container_idx

/-- The fixed digest suffix appended to the container name to form the
image. -/
def shaSuffix : String :=
  "@sha256:30375999bf03beec2187843017b10c9e88d8b1a91615df4eb6350fb39472edd9"

/-- One container of BatchBuilder::append: build the container name from
the service and the 0-based index, derive the image, draw the row count in
[1024, 8192) and append that many rows. -/
def appendContainer (b : BatchBuilder) (r : Rng)
    (host pod service : String) (container_idx : Nat) : BatchBuilder × Rng :=
  let container := containerName service container_idx
  let image := container ++ shaSuffix
  let (num_entries, r1) := r.genRange 1024 8192
  appendRows b r1 host pod service container image (List.range num_entries)

/-- Container loop of BatchBuilder::append over the container indices. -/
def appendContainers (b : BatchBuilder) (r : Rng)
    (host pod service : String) : List Nat → BatchBuilder × Rng
  | [] => (b, r)
  | i :: rest =>
    let (b1, r1) := appendContainer b r host pod service i
    appendContainers b1 r1 host pod service rest

/-- One pod of BatchBuilder::append: draw the container count in [1, 3)
and run the container loop over indices 0..count. -/
def appendPod (b : BatchBuilder) (r : Rng)
    (host service pod : String) : BatchBuilder × Rng :=
  let (c, r1) := r.genRange 1 3
  appendContainers b r1 host pod service (List.range c)

/-- Pod loop of BatchBuilder::append. -/
def appendPods (b : BatchBuilder) (r : Rng)
    (host service : String) : List String → BatchBuilder × Rng
  | [] => (b, r)
  | pod :: rest =>
    let (b1, r1) := appendPod b r host service pod
    appendPods b1 r1 host service rest

/-- BatchBuilder::append: draw the pod count in [1, 15), generate that
many sorted pod identifiers (strings of length in [30, 40)), then run the
pod loop. -/
def BatchBuilder.append (b : BatchBuilder) (r : Rng)
    (host service : String) : BatchBuilder × Rng :=
  let (num_pods, r1) := r.genRange 1 15
  let (pods, r2) := generate_sorted_strings r1 num_pods 30 40
  appendPods b r2 host service pods

/-- BatchBuilder::finish: wrap each builder into its typed column, in
source order, and validate with RecordBatch::try_new (the source unwraps
the result; None models the panic branch). -/
def BatchBuilder.finish (b : BatchBuilder) (schema : Schema) : Option RecordBatch :=
  RecordBatch.tryNew schema
    [.utf8Col b.service,
     .utf8Col b.host,
     .utf8Col b.pod,
     .utf8Col b.container,
     .utf8Col b.image,
     .tsMicroCol b.time,
     .utf8Col b.client_addr,
     .int32Col b.request_duration,
     .utf8Col b.request_user_agent,
     .utf8Col b.request_method,
     .utf8Col b.request_host,
     .int32Col b.request_bytes,
     .int32Col b.response_bytes,
     .uint16Col b.response_status]

/-- Lowercase hex digits of v, most significant first, with enough fuel;
mirrors the digit production of the Rust x formatter (no digits for 0). -/
def hexDigits : Nat → Nat → List Char → List Char
  | 0, _, acc => acc
  | fuel + 1, v, acc =>
    if v = 0 then acc
    else hexDigits fuel (v / 16) (Nat.digitChar (v % 16) :: acc)

/-- The 016x format of the source: hex digits left-padded with zeros to
16 characters (values below 2^64 always fit). -/
def formatHex16 (v : Nat) : String :=
  let ds := hexDigits 16 v []
  ⟨List.replicate (16 - ds.length) '0' ++ ds⟩

/-- Host identifier of Generator::next: the affine transform of the host
index (usize arithmetic, hence mod 2^64), 016x-formatted, wrapped in the
literal prefix i- and suffix .ec2.internal. -/
def hostId (idx : Nat) : String :=
  "i-" ++ formatHex16 ((idx * 0x7d87f8ed5c5 + 0x1ec3ca3151468928) % 2 ^ 64) ++ ".ec2.internal"

/-- The four enumerated services of Generator::next, in source order. -/
def services : List String := ["frontend", "backend", "database", "cache"]

/-- One iteration of the service loop of Generator::next: a 50 percent
coin flip; on true the service is skipped (continue), otherwise
BatchBuilder::append runs for it. -/
def serviceStep (host : String) (p : BatchBuilder × Rng) (service : String) :
    BatchBuilder × Rng :=
  let (skip, r1) := p.2.genBool 1 2
  if skip then (p.1, r1) else p.1.append r1 host service

/-- The service loop of Generator::next. -/
def runServices (host : String) (p : BatchBuilder × Rng) :
    List String → BatchBuilder × Rng
  | [] => p
  | s :: rest => runServices host (serviceStep host p s) rest

/-- Generator state: the fixed schema, the single shared RNG and the
monotonic host index. -/
structure Generator where
  schema : Schema
  rng : Rng
  host_idx : Nat

/-- The fixed seed bytes of Generator::new. -/
def generatorSeed : List Nat :=
  [1, 0, 0, 0, 23, 0, 3, 0, 200, 1, 0, 0, 210, 30, 8, 0,
   1, 0, 21, 0, 6, 0, 0, 0, 0, 0, 5, 0, 0, 0, 0, 0]

/-- Generator::new: the fixed schema, host index 0, and an RNG seeded
with the fixed constant byte sequence. StdRng::from_seed is external; it
is modelled by the function mkStream from seed bytes to a raw stream, so
that the RNG stream is a deterministic function of the seed. -/
def Generator.new (mkStream : List Nat → Nat → Nat) : Generator :=
  ⟨BatchBuilder.schema, ⟨mkStream generatorSeed, 0⟩, 0⟩

/-- Generator::next: format the host id from the current index, increment
the index, run the service loop on a fresh default builder, and finish the
batch against the stored schema (None models the unwrap panic branch; the
iterator itself always returns Some of the finished batch). -/
def Generator.next (g : Generator) : Option RecordBatch × Generator :=
  let builder := BatchBuilder.empty
  let host := hostId g.host_idx
  let (b, r) := runServices host (builder, g.rng) services
  (b.finish g.schema, ⟨g.schema, r, g.host_idx + 1⟩)

/-- Drawing k batches from the generator, collecting the yielded items. -/
def drawBatches (g : Generator) : Nat → List (Option RecordBatch)
  | 0 => []
  | k + 1 =>
    let (ob, g1) := g.next
    ob :: drawBatches g1 k

/-! ## Stream-position characterizations of the draw helpers -/

theorem randomChars_spec : ∀ (k : Nat) (r : Rng),
    randomChars r k =
      ((List.range k).map (fun j => Char.ofNat (97 + r.stream (r.pos + j) % 25)),
        ⟨r.stream, r.pos + k⟩)
  | 0, r => by
    simp [randomChars]
  | k + 1, r => by
    have ih := randomChars_spec k ⟨r.stream, r.pos + 1⟩
    simp only [randomChars, Rng.genRange, Rng.nextRaw, ih, List.range_succ_eq_map,
      List.map_cons, List.map_map]
    refine Prod.ext ?_ ?_
    · simp only [Nat.add_zero]
      refine congrArg₂ List.cons rfl ?_
      refine List.map_congr_left fun j hj => ?_
      simp only [Function.comp_apply]
      have : r.pos + 1 + j = r.pos + Nat.succ j := by omega
      rw [this]
    · simp only
      refine congrArg (Rng.mk r.stream) ?_
      omega

theorem random_string_spec (r : Rng) (lo hi : Nat) :
    random_string r lo hi =
      (⟨(List.range (lo + r.stream r.pos % (hi - lo))).map
          (fun j => Char.ofNat (97 + r.stream (r.pos + 1 + j) % 25))⟩,
        ⟨r.stream, r.pos + 1 + (lo + r.stream r.pos % (hi - lo))⟩) := by
  simp only [random_string, Rng.genRange, Rng.nextRaw, randomChars_spec]

/-- Length of the user-agent string drawn when append_row starts at
stream position p. -/
def uaLen (s : Nat → Nat) (p : Nat) : Nat := 20 + s (p + 5) % 80

/-- Number of draws consumed by the optional request_bytes value. -/
def rbCount (s : Nat → Nat) (p : Nat) : Nat :=
  if s (p + 7 + uaLen s p) % 10 < 9 then 2 else 1

/-- Number of draws consumed by the optional response_bytes value. -/
def sbCount (s : Nat → Nat) (p : Nat) : Nat :=
  if s (p + 7 + uaLen s p + rbCount s p) % 10 < 9 then 2 else 1

/-- Full characterization of append_row: every column receives exactly one
new entry, expressed by the raw stream values at explicit positions, and
the RNG advances by exactly 8 + uaLen + rbCount + sbCount draws. -/
theorem append_row_spec (b : BatchBuilder) (r : Rng)
    (host pod service container image : String) (t : Int) :
    b.append_row r host pod service container image t =
      ({ service := b.service ++ [some service],
         host := b.host ++ [some host],
         pod := b.pod ++ [some pod],
         container := b.container ++ [some container],
         image := b.image ++ [some image],
         time := b.time ++ [some t],
         client_addr := b.client_addr ++
           [some (toString (r.stream r.pos % 256) ++ "." ++
             toString (r.stream (r.pos + 1) % 256) ++ "." ++
             toString (r.stream (r.pos + 2) % 256) ++ "." ++
             toString (r.stream (r.pos + 3) % 256))],
         request_duration := b.request_duration ++ [some (i32OfRaw (r.stream (r.pos + 4)))],
         request_user_agent := b.request_user_agent ++
           [some ⟨(List.range (uaLen r.stream r.pos)).map
             (fun j => Char.ofNat (97 + r.stream (r.pos + 6 + j) % 25))⟩],
         request_method := b.request_method ++
           [some (["GET", "PUT", "POST", "HEAD", "PATCH", "DELETE"].getD
             (r.stream (r.pos + 6 + uaLen r.stream r.pos) % 6) "")],
         request_host := b.request_host ++
           [some ("https://" ++ service ++ ".mydomain.com")],
         request_bytes := b.request_bytes ++
           [if r.stream (r.pos + 7 + uaLen r.stream r.pos) % 10 < 9 then
              some (i32OfRaw (r.stream (r.pos + 8 + uaLen r.stream r.pos)))
            else none],
         response_bytes := b.response_bytes ++
           [if r.stream (r.pos + 7 + uaLen r.stream r.pos + rbCount r.stream r.pos) % 10 < 9 then
              some (i32OfRaw (r.stream (r.pos + 8 + uaLen r.stream r.pos + rbCount r.stream r.pos)))
            else none],
         response_status := b.response_status ++
           [some ([200, 204, 400, 503, 403].getD
             (r.stream (r.pos + 7 + uaLen r.stream r.pos + rbCount r.stream r.pos +
               sbCount r.stream r.pos) % 5) 0)] },
       ⟨r.stream, r.pos + 8 + uaLen r.stream r.pos + rbCount r.stream r.pos +
         sbCount r.stream r.pos⟩) := by
  simp only [BatchBuilder.append_row, Rng.genU8, Rng.genI32, Rng.genBool, Rng.genRange,
    Rng.nextRaw, random_string_spec, uaLen, rbCount, sbCount]
  norm_num
  ring_nf
  by_cases hrb : r.stream (27 + r.pos + r.stream (5 + r.pos) % 80) % 10 < 9
  · simp only [hrb, if_true, if_false]
    ring_nf
    by_cases hsb : r.stream (29 + r.pos + r.stream (5 + r.pos) % 80) % 10 < 9 <;>
      simp only [hsb, if_true, if_false] <;> ring_nf <;>
        exact ⟨⟨trivial, trivial, trivial⟩, trivial, trivial⟩
  · simp only [hrb, if_true, if_false]
    ring_nf
    by_cases hsb : r.stream (28 + r.pos + r.stream (5 + r.pos) % 80) % 10 < 9 <;>
      simp only [hsb, if_true, if_false] <;> ring_nf <;>
        exact ⟨⟨trivial, trivial, trivial⟩, trivial, trivial⟩

/-! ## Builder well-formedness -/

/-- All 14 builders hold exactly n entries and the non-nullable columns
(host, pod, container, image, time, response_status) hold no absent
entry; the source additionally never appends an absent service value. -/
def BuilderWF (b : BatchBuilder) (n : Nat) : Prop :=
  b.service.length = n ∧ b.host.length = n ∧ b.pod.length = n ∧
  b.container.length = n ∧ b.image.length = n ∧ b.time.length = n ∧
  b.client_addr.length = n ∧ b.request_duration.length = n ∧
  b.request_user_agent.length = n ∧ b.request_method.length = n ∧
  b.request_host.length = n ∧ b.request_bytes.length = n ∧
  b.response_bytes.length = n ∧ b.response_status.length = n ∧
  (∀ x ∈ b.host, x.isSome) ∧ (∀ x ∈ b.pod, x.isSome) ∧
  (∀ x ∈ b.container, x.isSome) ∧ (∀ x ∈ b.image, x.isSome) ∧
  (∀ x ∈ b.time, x.isSome) ∧ (∀ x ∈ b.request_duration, x.isSome) ∧
  (∀ x ∈ b.response_status, x.isSome)

theorem builderWF_empty : BuilderWF BatchBuilder.empty 0 := by
  refine ⟨rfl, rfl, rfl, rfl, rfl, rfl, rfl, rfl, rfl, rfl, rfl, rfl, rfl, rfl, ?_, ?_, ?_, ?_, ?_, ?_, ?_⟩ <;>
    intro x hx <;> simp [BatchBuilder.empty] at hx

theorem builderWF_append_row (b : BatchBuilder) (r : Rng)
    (host pod service container image : String) (t : Int) (n : Nat)
    (h : BuilderWF b n) :
    BuilderWF (b.append_row r host pod service container image t).1 (n + 1) := by
  obtain ⟨h1, h2, h3, h4, h5, h6, h7, h8, h9, h10, h11, h12, h13, h14,
    m1, m2, m3, m4, m5, m6, m7⟩ := h
  rw [append_row_spec]
  refine ⟨?_, ?_, ?_, ?_, ?_, ?_, ?_, ?_, ?_, ?_, ?_, ?_, ?_, ?_, ?_, ?_, ?_, ?_, ?_, ?_, ?_⟩ <;>
    simp_all [List.forall_mem_append] <;>
      rintro x (hx | rfl) <;> first | rfl | solve_by_elim

theorem builderWF_appendRows (host pod service container image : String) :
    ∀ (L : List Nat) (b : BatchBuilder) (r : Rng) (n : Nat), BuilderWF b n →
      BuilderWF (appendRows b r host pod service container image L).1 (n + L.length)
  | [], b, r, n, h => by simpa [appendRows] using h
  | i :: rest, b, r, n, h => by
    have h1 := builderWF_append_row b r host pod service container image ((i : Int) * 1024) n h
    have h2 := builderWF_appendRows host pod service container image rest
      (b.append_row r host pod service container image ((i : Int) * 1024)).1
      (b.append_row r host pod service container image ((i : Int) * 1024)).2 (n + 1) h1
    simp only [appendRows]
    simpa [Nat.add_assoc, Nat.add_comm, Nat.add_left_comm] using h2

theorem builderWF_appendContainer (b : BatchBuilder) (r : Rng)
    (host pod service : String) (idx : Nat) (n : Nat) (h : BuilderWF b n) :
    ∃ m, BuilderWF (appendContainer b r host pod service idx).1 m := by
  simp only [appendContainer]
  exact ⟨_, builderWF_appendRows _ _ _ _ _ _ _ _ _ h⟩

theorem builderWF_appendContainers (host pod service : String) :
    ∀ (J : List Nat) (b : BatchBuilder) (r : Rng) (n : Nat), BuilderWF b n →
      ∃ m, BuilderWF (appendContainers b r host pod service J).1 m
  | [], b, r, n, h => ⟨n, by simpa [appendContainers] using h⟩
  | i :: rest, b, r, n, h => by
    obtain ⟨m, hm⟩ := builderWF_appendContainer b r host pod service i n h
    simp only [appendContainers]
    exact builderWF_appendContainers host pod service rest _ _ m hm

theorem builderWF_appendPod (b : BatchBuilder) (r : Rng)
    (host service pod : String) (n : Nat) (h : BuilderWF b n) :
    ∃ m, BuilderWF (appendPod b r host service pod).1 m := by
  simp only [appendPod]
  exact builderWF_appendContainers host pod service _ _ _ n h

theorem builderWF_appendPods (host service : String) :
    ∀ (P : List String) (b : BatchBuilder) (r : Rng) (n : Nat), BuilderWF b n →
      ∃ m, BuilderWF (appendPods b r host service P).1 m
  | [], b, r, n, h => ⟨n, by simpa [appendPods] using h⟩
  | pod :: rest, b, r, n, h => by
    obtain ⟨m, hm⟩ := builderWF_appendPod b r host service pod n h
    simp only [appendPods]
    exact builderWF_appendPods host service rest _ _ m hm

theorem builderWF_append (b : BatchBuilder) (r : Rng)
    (host service : String) (n : Nat) (h : BuilderWF b n) :
    ∃ m, BuilderWF (b.append r host service).1 m := by
  simp only [BatchBuilder.append]
  exact builderWF_appendPods host service _ _ _ n h

theorem builderWF_serviceStep (host service : String)
    (p : BatchBuilder × Rng) (n : Nat) (h : BuilderWF p.1 n) :
    ∃ m, BuilderWF (serviceStep host p service).1 m := by
  simp only [serviceStep]
  by_cases hc : ((p.2.genBool 1 2).1 : Bool)
  · exact ⟨n, by simp [hc, h]⟩
  · simp only [hc]
    simpa using builderWF_append p.1 _ host service n h

theorem builderWF_runServices (host : String) :
    ∀ (ss : List String) (p : BatchBuilder × Rng) (n : Nat), BuilderWF p.1 n →
      ∃ m, BuilderWF (runServices host p ss).1 m
  | [], p, n, h => ⟨n, by simpa [runServices] using h⟩
  | s :: rest, p, n, h => by
    obtain ⟨m, hm⟩ := builderWF_serviceStep host s p n h
    simp only [runServices]
    exact builderWF_runServices host rest _ m hm

theorem filter_isNone_length_zero {α : Type} (l : List (Option α))
    (h : ∀ x ∈ l, x.isSome) : (l.filter (·.isNone)).length = 0 := by
  rw [List.length_eq_zero, List.filter_eq_nil_iff]
  intro x hx
  have hs := h x hx
  cases x with
  | none => simp at hs
  | some a => simp

/-- The columns assembled by BatchBuilder::finish from builder b. -/
def finishColumns (b : BatchBuilder) : List Column :=
  [.utf8Col b.service,
   .utf8Col b.host,
   .utf8Col b.pod,
   .utf8Col b.container,
   .utf8Col b.image,
   .tsMicroCol b.time,
   .utf8Col b.client_addr,
   .int32Col b.request_duration,
   .utf8Col b.request_user_agent,
   .utf8Col b.request_method,
   .utf8Col b.request_host,
   .int32Col b.request_bytes,
   .int32Col b.response_bytes,
   .uint16Col b.response_status]

theorem finish_eq_tryNew (b : BatchBuilder) (schema : Schema) :
    b.finish schema = RecordBatch.tryNew schema (finishColumns b) := rfl

theorem finish_succeeds (b : BatchBuilder) (n : Nat) (h : BuilderWF b n) :
    b.finish BatchBuilder.schema = some ⟨BatchBuilder.schema, finishColumns b⟩ := by
  obtain ⟨h1, h2, h3, h4, h5, h6, h7, h8, h9, h10, h11, h12, h13, h14,
    m1, m2, m3, m4, m5, m6, m7⟩ := h
  rw [finish_eq_tryNew, RecordBatch.tryNew, if_pos]
  refine ⟨rfl, ?_, ?_⟩
  · intro c hc
    fin_cases hc <;>
      simp [finishColumns, Column.length, h1, h2, h3, h4, h5, h6, h7, h8, h9,
        h10, h11, h12, h13, h14]
  · intro p hp
    fin_cases hp <;>
      refine ⟨rfl, fun hfalse => ?_⟩ <;>
        first
          | exact filter_isNone_length_zero _ m1
          | exact filter_isNone_length_zero _ m2
          | exact filter_isNone_length_zero _ m3
          | exact filter_isNone_length_zero _ m4
          | exact filter_isNone_length_zero _ m5
          | exact filter_isNone_length_zero _ m6
          | exact filter_isNone_length_zero _ m7
          | cases hfalse

/-! ## Column-segment characterizations of the generation loops -/

/-- Timestamps of the inner row loop: index i maps to i * 1024. -/
def rowTimes (L : List Nat) : List (Option Int) :=
  L.map (fun (i : Nat) => some ((i : Int) * 1024))

theorem rowTimes_nil : rowTimes [] = [] := rfl

theorem rowTimes_cons (i : Nat) (rest : List Nat) :
    rowTimes (i :: rest) = some ((i : Int) * 1024) :: rowTimes rest := rfl

theorem append_row_cols4 (b : BatchBuilder) (r : Rng)
    (host pod service container image : String) (t : Int) :
    (b.append_row r host pod service container image t).1.pod = b.pod ++ [some pod] ∧
    (b.append_row r host pod service container image t).1.container = b.container ++ [some container] ∧
    (b.append_row r host pod service container image t).1.image = b.image ++ [some image] ∧
    (b.append_row r host pod service container image t).1.time = b.time ++ [some t] := by
  rw [append_row_spec]
  exact ⟨rfl, rfl, rfl, rfl⟩

theorem appendRows_cols4 (host pod service container image : String) :
    ∀ (L : List Nat) (b : BatchBuilder) (r : Rng),
      (appendRows b r host pod service container image L).1.pod =
        b.pod ++ List.replicate L.length (some pod) ∧
      (appendRows b r host pod service container image L).1.container =
        b.container ++ List.replicate L.length (some container) ∧
      (appendRows b r host pod service container image L).1.image =
        b.image ++ List.replicate L.length (some image) ∧
      (appendRows b r host pod service container image L).1.time =
        b.time ++ rowTimes L
  | [], b, r => by simp [appendRows, rowTimes_nil]
  | i :: rest, b, r => by
    obtain ⟨c1, c2, c3, c4⟩ := append_row_cols4 b r host pod service container image ((i : Int) * 1024)
    obtain ⟨i1, i2, i3, i4⟩ := appendRows_cols4 host pod service container image rest
      (b.append_row r host pod service container image ((i : Int) * 1024)).1
      (b.append_row r host pod service container image ((i : Int) * 1024)).2
    simp only [appendRows, i1, i2, i3, i4, c1, c2, c3, c4, List.length_cons,
      List.replicate_succ, rowTimes_cons, List.append_assoc, List.singleton_append]
    exact ⟨trivial, trivial, trivial, trivial⟩

theorem appendContainer_cols (b : BatchBuilder) (r : Rng)
    (host pod service : String) (idx : Nat) :
    ∃ k, 1024 ≤ k ∧ k ≤ 8191 ∧
      (appendContainer b r host pod service idx).1.pod =
        b.pod ++ List.replicate k (some pod) ∧
      (appendContainer b r host pod service idx).1.container =
        b.container ++ List.replicate k (some (containerName service idx)) ∧
      (appendContainer b r host pod service idx).1.image =
        b.image ++ List.replicate k (some (containerName service idx ++ shaSuffix)) ∧
      (appendContainer b r host pod service idx).1.time =
        b.time ++ rowTimes (List.range k) := by
  simp only [appendContainer, Rng.genRange, Rng.nextRaw]
  refine ⟨1024 + r.stream r.pos % (8192 - 1024), by omega,
    by have := Nat.mod_lt (r.stream r.pos) (y := 8192 - 1024) (by norm_num); omega, ?_⟩
  have h := appendRows_cols4 host pod service (containerName service idx)
    (containerName service idx ++ shaSuffix)
    (List.range (1024 + r.stream r.pos % (8192 - 1024))) b ⟨r.stream, r.pos + 1⟩
  simpa [List.length_range] using h

theorem appendContainers_cols (host pod service : String) :
    ∀ (J : List Nat) (b : BatchBuilder) (r : Rng),
      ∃ ks : List Nat, ks.length = J.length ∧
        (∀ k ∈ ks, 1024 ≤ k ∧ k ≤ 8191) ∧
        (appendContainers b r host pod service J).1.pod =
          b.pod ++ List.replicate ks.sum (some pod) ∧
        (appendContainers b r host pod service J).1.container =
          b.container ++ (J.zip ks).flatMap
            (fun ik => List.replicate ik.2 (some (containerName service ik.1))) ∧
        (appendContainers b r host pod service J).1.image =
          b.image ++ (J.zip ks).flatMap
            (fun ik => List.replicate ik.2 (some (containerName service ik.1 ++ shaSuffix)))
  | [], b, r => ⟨[], by simp [appendContainers]⟩
  | i :: rest, b, r => by
    obtain ⟨k0, hk0lo, hk0hi, c1, c2, c3, _⟩ := appendContainer_cols b r host pod service i
    obtain ⟨ks, hlen, hbound, i1, i2, i3⟩ := appendContainers_cols host pod service rest
      (appendContainer b r host pod service i).1
      (appendContainer b r host pod service i).2
    refine ⟨k0 :: ks, by simp [hlen], ?_, ?_, ?_, ?_⟩
    · intro k hk
      rcases List.mem_cons.mp hk with rfl | hk
      · exact ⟨hk0lo, hk0hi⟩
      · exact hbound k hk
    · simp only [appendContainers, i1, c1, List.sum_cons, List.append_assoc,
        List.replicate_add]
    · simp only [appendContainers, i2, c2, List.zip_cons_cons, List.flatMap_cons,
        List.append_assoc]
    · simp only [appendContainers, i3, c3, List.zip_cons_cons, List.flatMap_cons,
        List.append_assoc]

theorem appendPod_cols (b : BatchBuilder) (r : Rng)
    (host service pod : String) :
    ∃ (c : Nat) (ks : List Nat), (c = 1 ∨ c = 2) ∧ ks.length = c ∧
      (∀ k ∈ ks, 1024 ≤ k ∧ k ≤ 8191) ∧
      (appendPod b r host service pod).1.pod =
        b.pod ++ List.replicate ks.sum (some pod) ∧
      (appendPod b r host service pod).1.container =
        b.container ++ ((List.range c).zip ks).flatMap
          (fun ik => List.replicate ik.2 (some (containerName service ik.1))) ∧
      (appendPod b r host service pod).1.image =
        b.image ++ ((List.range c).zip ks).flatMap
          (fun ik => List.replicate ik.2 (some (containerName service ik.1 ++ shaSuffix))) := by
  simp only [appendPod, Rng.genRange, Rng.nextRaw]
  obtain ⟨ks, hlen, hbound, e1, e2, e3⟩ := appendContainers_cols host pod service
    (List.range (1 + r.stream r.pos % (3 - 1))) b ⟨r.stream, r.pos + 1⟩
  refine ⟨1 + r.stream r.pos % (3 - 1), ks, ?_, ?_, hbound, e1, e2, e3⟩
  · have := Nat.mod_lt (r.stream r.pos) (y := 3 - 1) (by norm_num)
    omega
  · simpa [List.length_range] using hlen

theorem appendPods_cols (host service : String) :
    ∀ (P : List String) (b : BatchBuilder) (r : Rng),
      ∃ plan : List (String × List Nat),
        plan.map Prod.fst = P ∧
        (∀ pr ∈ plan, (pr.2.length = 1 ∨ pr.2.length = 2) ∧
          ∀ k ∈ pr.2, 1024 ≤ k ∧ k ≤ 8191) ∧
        (appendPods b r host service P).1.pod =
          b.pod ++ plan.flatMap (fun pr => List.replicate pr.2.sum (some pr.1)) ∧
        (appendPods b r host service P).1.container =
          b.container ++ plan.flatMap (fun pr =>
            ((List.range pr.2.length).zip pr.2).flatMap
              (fun ik => List.replicate ik.2 (some (containerName service ik.1)))) ∧
        (appendPods b r host service P).1.image =
          b.image ++ plan.flatMap (fun pr =>
            ((List.range pr.2.length).zip pr.2).flatMap
              (fun ik => List.replicate ik.2 (some (containerName service ik.1 ++ shaSuffix))))
  | [], b, r => ⟨[], by simp [appendPods]⟩
  | pod :: rest, b, r => by
    obtain ⟨c, ks, hc, hlen, hbound, e1, e2, e3⟩ := appendPod_cols b r host service pod
    obtain ⟨plan, hfst, hplan, i1, i2, i3⟩ := appendPods_cols host service rest
      (appendPod b r host service pod).1 (appendPod b r host service pod).2
    refine ⟨(pod, ks) :: plan, by simp [hfst], ?_, ?_, ?_, ?_⟩
    · intro pr hpr
      rcases List.mem_cons.mp hpr with rfl | hpr
      · constructor
        · rw [hlen]; exact hc
        · exact hbound
      · exact hplan pr hpr
    · simp only [appendPods, i1, e1, List.flatMap_cons, List.append_assoc]
    · simp only [appendPods, i2, e2, List.flatMap_cons, List.append_assoc, hlen]
    · simp only [appendPods, i3, e3, List.flatMap_cons, List.append_assoc, hlen]

/-! ## Random string lemmas -/

theorem random_string_length (r : Rng) (lo hi : Nat) :
    (random_string r lo hi).1.length = lo + r.stream r.pos % (hi - lo) := by
  rw [random_string_spec]
  simp [String.length]

theorem randomStrings_length (lo hi : Nat) :
    ∀ (k : Nat) (r : Rng), (randomStrings r lo hi k).1.length = k
  | 0, r => rfl
  | k + 1, r => by
    simp only [randomStrings, List.length_cons]
    rw [randomStrings_length lo hi k]

theorem randomStrings_mem_length (lo hi : Nat) (h : lo < hi) :
    ∀ (k : Nat) (r : Rng), ∀ s ∈ (randomStrings r lo hi k).1,
      lo ≤ s.length ∧ s.length < hi
  | 0, r, s, hs => by simp [randomStrings] at hs
  | k + 1, r, s, hs => by
    simp only [randomStrings, List.mem_cons] at hs
    rcases hs with rfl | hs
    · rw [random_string_length]
      have := Nat.mod_lt (r.stream r.pos) (y := hi - lo) (by omega)
      omega
    · exact randomStrings_mem_length lo hi h k _ s hs

theorem generate_sorted_strings_length (r : Rng) (count lo hi : Nat) :
    (generate_sorted_strings r count lo hi).1.length = count := by
  simp only [generate_sorted_strings]
  rw [List.length_mergeSort, randomStrings_length]

theorem generate_sorted_strings_mem (r : Rng) (count lo hi : Nat) (s : String) :
    s ∈ (generate_sorted_strings r count lo hi).1 ↔
      s ∈ (randomStrings r lo hi count).1 :=
  (List.mergeSort_perm _ _).mem_iff

/-- The pod identifiers produced by generate_sorted_strings are
lexicographically sorted: the sort happens inside the function, before the
list is handed to the emission loop. -/
theorem generate_sorted_strings_sorted (r : Rng) (count lo hi : Nat) :
    ((generate_sorted_strings r count lo hi).1).Pairwise (· ≤ ·) := by
  simp only [generate_sorted_strings]
  have h := @List.sorted_mergeSort String (fun a b : String => decide (a ≤ b))
    (fun a b c hab hbc =>
      decide_eq_true (le_trans (of_decide_eq_true hab) (of_decide_eq_true hbc)))
    (fun a b => by
      rcases le_total a b with hab | hab
      · simp [hab]
      · simp [hab])
    (randomStrings r lo hi count).1
  exact h.imp fun hab => of_decide_eq_true hab

/-- Full structural characterization of BatchBuilder::append: a plan
records, per sorted pod identifier, the per-container row counts; the
pod, container and image columns receive exactly the corresponding
blocks. -/
theorem append_cols (b : BatchBuilder) (r : Rng) (host service : String) :
    ∃ plan : List (String × List Nat),
      1 ≤ plan.length ∧ plan.length ≤ 14 ∧
      (∀ pr ∈ plan, 30 ≤ pr.1.length ∧ pr.1.length ≤ 39) ∧
      (plan.map Prod.fst).Pairwise (· ≤ ·) ∧
      (∀ pr ∈ plan, (pr.2.length = 1 ∨ pr.2.length = 2) ∧
        ∀ k ∈ pr.2, 1024 ≤ k ∧ k ≤ 8191) ∧
      (b.append r host service).1.pod =
        b.pod ++ plan.flatMap (fun pr => List.replicate pr.2.sum (some pr.1)) ∧
      (b.append r host service).1.container =
        b.container ++ plan.flatMap (fun pr =>
          ((List.range pr.2.length).zip pr.2).flatMap
            (fun ik => List.replicate ik.2 (some (containerName service ik.1)))) ∧
      (b.append r host service).1.image =
        b.image ++ plan.flatMap (fun pr =>
          ((List.range pr.2.length).zip pr.2).flatMap
            (fun ik => List.replicate ik.2 (some (containerName service ik.1 ++ shaSuffix)))) := by
  simp only [BatchBuilder.append, Rng.genRange, Rng.nextRaw]
  obtain ⟨plan, hfst, hplan, e1, e2, e3⟩ := appendPods_cols host service
    (generate_sorted_strings ⟨r.stream, r.pos + 1⟩ (1 + r.stream r.pos % (15 - 1)) 30 40).1
    b (generate_sorted_strings ⟨r.stream, r.pos + 1⟩ (1 + r.stream r.pos % (15 - 1)) 30 40).2
  have hlen : plan.length = 1 + r.stream r.pos % (15 - 1) := by
    have := congrArg List.length hfst
    simpa [generate_sorted_strings_length] using this
  have hmod := Nat.mod_lt (r.stream r.pos) (y := 15 - 1) (by norm_num)
  refine ⟨plan, by omega, by omega, ?_, ?_, hplan, e1, e2, e3⟩
  · intro pr hpr
    have hmem : pr.1 ∈ plan.map Prod.fst := List.mem_map_of_mem Prod.fst hpr
    rw [hfst, generate_sorted_strings_mem] at hmem
    have := randomStrings_mem_length 30 40 (by norm_num) _ _ pr.1 hmem
    omega
  · rw [hfst]
    exact generate_sorted_strings_sorted _ _ _ _

/-! ## Hex formatting lemmas -/

/-- Value of one lowercase hex digit character. -/
def hexVal (c : Char) : Nat :=
  if c.toNat ≤ 57 then c.toNat - 48 else c.toNat - 87

/-- Parse a hex digit list, most significant first. -/
def unhexAux (acc : Nat) (cs : List Char) : Nat :=
  cs.foldl (fun a c => a * 16 + hexVal c) acc

theorem hexVal_digitChar (d : Nat) (h : d < 16) :
    hexVal (Nat.digitChar d) = d := by
  interval_cases d <;> rfl

theorem hexDigits_length : ∀ (fuel v : Nat) (acc : List Char),
    (hexDigits fuel v acc).length ≤ fuel + acc.length
  | 0, v, acc => by simp [hexDigits]
  | fuel + 1, v, acc => by
    simp only [hexDigits]
    split
    · simp
    · have := hexDigits_length fuel (v / 16) (Nat.digitChar (v % 16) :: acc)
      simp only [List.length_cons] at this
      omega

theorem hexDigits_acc : ∀ (fuel v : Nat) (acc : List Char),
    hexDigits fuel v acc = hexDigits fuel v [] ++ acc
  | 0, v, acc => by simp [hexDigits]
  | fuel + 1, v, acc => by
    simp only [hexDigits]
    split
    · simp
    · rw [hexDigits_acc fuel (v / 16) (Nat.digitChar (v % 16) :: acc),
        hexDigits_acc fuel (v / 16) [Nat.digitChar (v % 16)]]
      simp

theorem unhexAux_append (acc : Nat) (l1 l2 : List Char) :
    unhexAux acc (l1 ++ l2) = unhexAux (unhexAux acc l1) l2 := by
  simp [unhexAux, List.foldl_append]

theorem unhexAux_hexDigits : ∀ (fuel v : Nat), v < 16 ^ fuel →
    unhexAux 0 (hexDigits fuel v []) = v
  | 0, v, h => by
    simp only [Nat.pow_zero, Nat.lt_one_iff] at h
    simp [hexDigits, unhexAux, h]
  | fuel + 1, v, h => by
    simp only [hexDigits]
    split
    · simp [unhexAux]
      omega
    · rw [hexDigits_acc, unhexAux_append]
      have hdiv : v / 16 < 16 ^ fuel := by
        rw [Nat.div_lt_iff_lt_mul (by norm_num)]
        calc v < 16 ^ (fuel + 1) := h
        _ = 16 ^ fuel * 16 := by ring
      rw [unhexAux_hexDigits fuel (v / 16) hdiv]
      simp only [unhexAux, List.foldl_cons, List.foldl_nil]
      rw [hexVal_digitChar (v % 16) (Nat.mod_lt v (by norm_num))]
      omega

theorem unhexAux_zeros : ∀ (k : Nat) (l : List Char),
    unhexAux 0 (List.replicate k '0' ++ l) = unhexAux 0 l
  | 0, l => by simp
  | k + 1, l => by
    simp only [List.replicate_succ, List.cons_append, unhexAux, List.foldl_cons]
    have : 0 * 16 + hexVal '0' = 0 := rfl
    rw [this]
    exact unhexAux_zeros k l

theorem formatHex16_parse (v : Nat) (h : v < 2 ^ 64) :
    unhexAux 0 (formatHex16 v).data = v := by
  have h16 : v < 16 ^ 16 := by norm_num at h ⊢; omega
  simp only [formatHex16]
  rw [unhexAux_zeros]
  exact unhexAux_hexDigits 16 v h16

theorem formatHex16_length (v : Nat) :
    (formatHex16 v).data.length = 16 := by
  simp only [formatHex16, List.length_append, List.length_replicate]
  have := hexDigits_length 16 v []
  simp only [List.length_nil, Nat.add_zero] at this
  omega

theorem formatHex16_injOn (v w : Nat) (hv : v < 2 ^ 64) (hw : w < 2 ^ 64)
    (h : formatHex16 v = formatHex16 w) : v = w := by
  rw [← formatHex16_parse v hv, ← formatHex16_parse w hw, h]

theorem hostId_inj (n m : Nat)
    (h : hostId n = hostId m) :
    (n * 0x7d87f8ed5c5 + 0x1ec3ca3151468928) % 2 ^ 64 =
      (m * 0x7d87f8ed5c5 + 0x1ec3ca3151468928) % 2 ^ 64 := by
  have hdata := congrArg String.data h
  simp only [hostId, String.data_append, List.append_assoc] at hdata
  have hcancel := List.append_cancel_left hdata
  have hl : (formatHex16 ((n * 0x7d87f8ed5c5 + 0x1ec3ca3151468928) % 2 ^ 64)).data.length =
      (formatHex16 ((m * 0x7d87f8ed5c5 + 0x1ec3ca3151468928) % 2 ^ 64)).data.length := by
    rw [formatHex16_length, formatHex16_length]
  have hmid := (List.append_inj hcancel hl).1
  have hv := Nat.mod_lt (n * 0x7d87f8ed5c5 + 0x1ec3ca3151468928) (y := 2 ^ 64) (by norm_num)
  have hw := Nat.mod_lt (m * 0x7d87f8ed5c5 + 0x1ec3ca3151468928) (y := 2 ^ 64) (by norm_num)
  exact formatHex16_injOn _ _ hv hw (String.ext hmid)

theorem hostId_ne_succ (n : Nat) : hostId n ≠ hostId (n + 1) := by
  intro h
  have := hostId_inj n (n + 1) h
  have hmul : (n + 1) * 0x7d87f8ed5c5 = n * 0x7d87f8ed5c5 + 0x7d87f8ed5c5 := by ring
  rw [hmul] at this
  generalize n * 0x7d87f8ed5c5 = a at this
  omega

/-! ## Character range, i32 range, skip and totality helpers -/

theorem toNat_ofNat_lower (k : Nat) :
    (Char.ofNat (97 + k % 25)).toNat = 97 + k % 25 := by
  have h : k % 25 < 25 := Nat.mod_lt _ (by norm_num)
  generalize hg : k % 25 = m at h ⊢
  interval_cases m <;> rfl

theorem i32OfRaw_bounds (v : Nat) :
    -(2 ^ 31) ≤ i32OfRaw v ∧ i32OfRaw v < 2 ^ 31 := by
  unfold i32OfRaw
  have h := Nat.mod_lt v (y := 2 ^ 32) (by norm_num)
  split
  · constructor
    · have h0 : (0 : Int) ≤ ((v % 2 ^ 32 : Nat) : Int) := Int.natCast_nonneg _
      omega
    · exact_mod_cast by assumption
  · rename_i hge
    push_neg at hge
    constructor
    · have : (2 ^ 31 : Int) ≤ ((v % 2 ^ 32 : Nat) : Int) := by exact_mod_cast hge
      omega
    · have : ((v % 2 ^ 32 : Nat) : Int) < 2 ^ 32 := by exact_mod_cast h
      omega

theorem serviceStep_skip (host service : String) (p : BatchBuilder × Rng)
    (h : (p.2.genBool 1 2).1 = true) :
    serviceStep host p service = (p.1, ⟨p.2.stream, p.2.pos + 1⟩) := by
  simp only [serviceStep, Rng.genBool, Rng.nextRaw] at h ⊢
  rw [if_pos h]

theorem runServices_all_skip (host : String) (b : BatchBuilder) (r : Rng)
    (h : ∀ j < 4, r.stream (r.pos + j) % 2 = 0) :
    runServices host (b, r) services = (b, ⟨r.stream, r.pos + 4⟩) := by
  have flip : ∀ j, j < 4 → (Rng.genBool ⟨r.stream, r.pos + j⟩ 1 2).1 = true := by
    intro j hj
    simp only [Rng.genBool, Rng.nextRaw, decide_eq_true_eq]
    have := h j hj
    omega
  have flip0 : (Rng.genBool r 1 2).1 = true := by
    simp only [Rng.genBool, Rng.nextRaw, decide_eq_true_eq]
    have h0 := h 0 (by norm_num)
    simp only [Nat.add_zero] at h0
    omega
  have s0 := serviceStep_skip host "frontend" (b, r) flip0
  have s1 := serviceStep_skip host "backend" (b, ⟨r.stream, r.pos + 1⟩) (flip 1 (by norm_num))
  have s2 := serviceStep_skip host "database" (b, ⟨r.stream, r.pos + 1 + 1⟩) (by
    have := flip 2 (by norm_num)
    simpa [Nat.add_assoc] using this)
  have s3 := serviceStep_skip host "cache" (b, ⟨r.stream, r.pos + 1 + 1 + 1⟩) (by
    have := flip 3 (by norm_num)
    simpa [Nat.add_assoc] using this)
  simp only [services, runServices, s0, s1, s2, s3]

theorem tryNew_eq_some {schema : Schema} {cols : List Column} {rb : RecordBatch}
    (h : RecordBatch.tryNew schema cols = some rb) :
    rb.schema = schema ∧ rb.columns = cols ∧
    cols.length = schema.length ∧
    (∀ c ∈ cols, c.length = (cols.headD (Column.utf8Col [])).length) ∧
    (∀ p ∈ schema.zip cols,
      p.1.dtype = p.2.dtype ∧ (p.1.nullable = false → p.2.nullCount = 0)) := by
  unfold RecordBatch.tryNew at h
  split at h
  · cases h
    rename_i hcond
    exact ⟨rfl, rfl, hcond.1, hcond.2.1, hcond.2.2⟩
  · cases h

theorem next_some (rng : Rng) (idx : Nat) :
    (Generator.next ⟨BatchBuilder.schema, rng, idx⟩).1 =
      some ⟨BatchBuilder.schema,
        finishColumns (runServices (hostId idx) (BatchBuilder.empty, rng) services).1⟩ := by
  obtain ⟨m, hm⟩ := builderWF_runServices (hostId idx) services
    (BatchBuilder.empty, rng) 0 builderWF_empty
  simp only [Generator.next]
  exact finish_succeeds _ m hm

theorem randomStrings_mem_exists (lo hi : Nat) :
    ∀ (k : Nat) (r : Rng), ∀ s ∈ (randomStrings r lo hi k).1,
      ∃ r1 : Rng, s = (random_string r1 lo hi).1
  | 0, r, s, hs => by simp [randomStrings] at hs
  | k + 1, r, s, hs => by
    simp only [randomStrings, List.mem_cons] at hs
    rcases hs with rfl | hs
    · exact ⟨r, rfl⟩
    · exact randomStrings_mem_exists lo hi k _ s hs

theorem random_string_chars (r : Rng) (lo hi : Nat) :
    ∀ c ∈ (random_string r lo hi).1.data, 97 ≤ c.toNat ∧ c.toNat ≤ 121 ∧ c ≠ 'z' := by
  intro c hc
  rw [random_string_spec] at hc
  simp only [List.mem_map, List.mem_range] at hc
  obtain ⟨j, _, rfl⟩ := hc
  have ht := toNat_ofNat_lower (r.stream (r.pos + 1 + j))
  have hlt : r.stream (r.pos + 1 + j) % 25 < 25 := Nat.mod_lt _ (by norm_num)
  refine ⟨by omega, by omega, ?_⟩
  intro hz
  have : (Char.ofNat (97 + r.stream (r.pos + 1 + j) % 25)).toNat = 122 := by
    rw [hz]; rfl
  omega

theorem filterMap_id_flatMap_replicate (plan : List (String × List Nat)) :
    (plan.flatMap fun pr => List.replicate pr.2.sum ((some pr.1 : Option String))).filterMap id =
      plan.flatMap fun pr => List.replicate pr.2.sum pr.1 := by
  induction plan with
  | nil => rfl
  | cons pr rest ih =>
    simp only [List.flatMap_cons, List.filterMap_append, ih, List.filterMap_replicate, id]

theorem pairwise_le_flatMap_replicate (plan : List (String × List Nat))
    (h : (plan.map Prod.fst).Pairwise (· ≤ ·)) :
    (plan.flatMap fun pr => List.replicate pr.2.sum pr.1).Pairwise (· ≤ ·) := by
  rw [List.pairwise_flatMap]
  refine ⟨fun pr _ => ?_, ?_⟩
  · rw [List.pairwise_replicate]
    right
    exact le_refl _
  · have h2 := List.pairwise_map.mp h
    refine h2.imp ?_
    intro a b hab x hx y hy
    rw [List.eq_of_mem_replicate hx, List.eq_of_mem_replicate hy]
    exact hab

/-! ## Claim theorems -/

/-- C1: generation is deterministic. Generator::new seeds its RNG from the
fixed constant byte sequence via the external StdRng (modelled by the
stream constructor passed in); two constructions whose streams agree on
that fixed seed yield identical batch sequences for any number of steps. -/
theorem claim_determinism (f g : List Nat → Nat → Nat) (k : Nat)
    (h : ∀ n, f generatorSeed n = g generatorSeed n) :
    drawBatches (Generator.new f) k = drawBatches (Generator.new g) k := by
  have hs : f generatorSeed = g generatorSeed := funext h
  simp only [Generator.new, hs]

theorem claim_determinism_witness :
    drawBatches (Generator.new fun _ n => n) 2 =
      drawBatches (Generator.new fun _ n => n) 2 :=
  claim_determinism (fun _ n => n) (fun _ n => n) 2 fun _ => rfl

/-- C2: for every (host, service) pair that is generated, the pod
identifiers are sorted once by generate_sorted_strings before emission,
and the pod column entries appended by BatchBuilder::append form a
non-decreasing sequence. -/
theorem claim_pod_sort_invariant :
    (∀ (r : Rng) (count lo hi : Nat),
      ((generate_sorted_strings r count lo hi).1).Pairwise (· ≤ ·)) ∧
    (∀ (b : BatchBuilder) (r : Rng) (host service : String),
      (((b.append r host service).1.pod.drop b.pod.length).filterMap id).Pairwise (· ≤ ·)) := by
  refine ⟨generate_sorted_strings_sorted, ?_⟩
  intro b r host service
  obtain ⟨plan, _, _, _, hsorted, _, e1, _, _⟩ := append_cols b r host service
  rw [e1, List.drop_left, filterMap_id_flatMap_replicate]
  exact pairwise_le_flatMap_replicate plan hsorted

/-- C3: within one container, the i-th appended row carries timestamp
i * 1024 microseconds: the rows appended by appendContainer extend the
time column by exactly the map of i to i * 1024 over 0..k, so the first
timestamp is 0, consecutive timestamps differ by exactly 1024, and the
sequence strictly increases. -/
theorem claim_timestamps (b : BatchBuilder) (r : Rng)
    (host pod service : String) (idx : Nat) :
    ∃ k, 1024 ≤ k ∧ k ≤ 8191 ∧
      (appendContainer b r host pod service idx).1.time.drop b.time.length =
        (List.range k).map (fun (i : Nat) => some ((i : Int) * 1024)) ∧
      ((List.range k).map fun (i : Nat) => ((i : Int) * 1024)).Pairwise (· < ·) := by
  obtain ⟨k, h1, h2, _, _, _, ht⟩ := appendContainer_cols b r host pod service idx
  refine ⟨k, h1, h2, ?_, ?_⟩
  · rw [ht, List.drop_left, rowTimes]
  · refine List.pairwise_map.mpr ?_
    refine (List.pairwise_lt_range k).imp ?_
    intro i j hij
    omega

/-- C4: every batch yielded by Generator::next carries the fixed 14-field
schema (names, types, nullability, order as enumerated), its 14 columns
all share one length, and no non-nullable field holds an absent value. -/
theorem claim_schema_conformance (rng : Rng) (idx : Nat) (batch : RecordBatch)
    (h : (Generator.next ⟨BatchBuilder.schema, rng, idx⟩).1 = some batch) :
    BatchBuilder.schema =
      [⟨"service", .utf8, true⟩,
       ⟨"host", .utf8, false⟩,
       ⟨"pod", .utf8, false⟩,
       ⟨"container", .utf8, false⟩,
       ⟨"image", .utf8, false⟩,
       ⟨"time", .timestampMicrosecond, false⟩,
       ⟨"client_addr", .utf8, true⟩,
       ⟨"request_duration_ns", .int32, false⟩,
       ⟨"request_user_agent", .utf8, true⟩,
       ⟨"request_method", .utf8, true⟩,
       ⟨"request_host", .utf8, true⟩,
       ⟨"request_bytes", .int32, true⟩,
       ⟨"response_bytes", .int32, true⟩,
       ⟨"response_status", .uint16, false⟩] ∧
    batch.schema = BatchBuilder.schema ∧
    batch.columns.length = 14 ∧
    (∃ n, ∀ c ∈ batch.columns, c.length = n) ∧
    (∀ p ∈ BatchBuilder.schema.zip batch.columns,
      p.1.dtype = p.2.dtype ∧ (p.1.nullable = false → p.2.nullCount = 0)) := by
  rw [next_some rng idx] at h
  injection h with h
  subst h
  obtain ⟨m, hm⟩ := builderWF_runServices (hostId idx) services
    (BatchBuilder.empty, rng) 0 builderWF_empty
  have hfin := finish_succeeds _ m hm
  rw [finish_eq_tryNew] at hfin
  obtain ⟨_, _, hlen, hhead, hzip⟩ := tryNew_eq_some hfin
  refine ⟨rfl, rfl, ?_, ?_, ?_⟩
  · simp [finishColumns]
  · exact ⟨_, hhead⟩
  · exact hzip

theorem claim_schema_conformance_witness :
    (Generator.next ⟨BatchBuilder.schema, ⟨fun _ => 0, 0⟩, 0⟩).1 =
      some ⟨BatchBuilder.schema, finishColumns BatchBuilder.empty⟩ ∧
    (⟨BatchBuilder.schema, finishColumns BatchBuilder.empty⟩ : RecordBatch).columns.length = 14 ∧
    (∃ n, ∀ c ∈ (⟨BatchBuilder.schema, finishColumns BatchBuilder.empty⟩ : RecordBatch).columns,
      c.length = n) := by
  have hs : (Generator.next ⟨BatchBuilder.schema, ⟨fun _ => 0, 0⟩, 0⟩).1 =
      some ⟨BatchBuilder.schema, finishColumns BatchBuilder.empty⟩ := by decide
  obtain ⟨_, _, h3, h4, _⟩ := claim_schema_conformance ⟨fun _ => 0, 0⟩ 0
    ⟨BatchBuilder.schema, finishColumns BatchBuilder.empty⟩ hs
  exact ⟨hs, h3, h4⟩

/-- C5: append_row performs its per-row draws in exactly the fixed order,
witnessed by the consecutive raw stream positions consumed: four u8 draws
for client_addr, the full-range i32 request_duration, the user-agent
length then its characters, the method index, no draw for the computed
request_host, the presence flag then optional value for request_bytes and
then response_bytes, and finally the status index; the returned state is
only the extended builder and the advanced RNG. The drawn values lie in
the claimed domains: user-agent length in 20..99 with lowercase
characters, method among the six verbs, status among the five codes,
duration a full-range 32-bit signed integer. -/
theorem claim_row_draw_order (b : BatchBuilder) (r : Rng)
    (host pod service container image : String) (t : Int) :
    (b.append_row r host pod service container image t =
      ({ service := b.service ++ [some service],
         host := b.host ++ [some host],
         pod := b.pod ++ [some pod],
         container := b.container ++ [some container],
         image := b.image ++ [some image],
         time := b.time ++ [some t],
         client_addr := b.client_addr ++
           [some (toString (r.stream r.pos % 256) ++ "." ++
             toString (r.stream (r.pos + 1) % 256) ++ "." ++
             toString (r.stream (r.pos + 2) % 256) ++ "." ++
             toString (r.stream (r.pos + 3) % 256))],
         request_duration := b.request_duration ++ [some (i32OfRaw (r.stream (r.pos + 4)))],
         request_user_agent := b.request_user_agent ++
           [some ⟨(List.range (uaLen r.stream r.pos)).map
             (fun j => Char.ofNat (97 + r.stream (r.pos + 6 + j) % 25))⟩],
         request_method := b.request_method ++
           [some (["GET", "PUT", "POST", "HEAD", "PATCH", "DELETE"].getD
             (r.stream (r.pos + 6 + uaLen r.stream r.pos) % 6) "")],
         request_host := b.request_host ++
           [some ("https://" ++ service ++ ".mydomain.com")],
         request_bytes := b.request_bytes ++
           [if r.stream (r.pos + 7 + uaLen r.stream r.pos) % 10 < 9 then
              some (i32OfRaw (r.stream (r.pos + 8 + uaLen r.stream r.pos)))
            else none],
         response_bytes := b.response_bytes ++
           [if r.stream (r.pos + 7 + uaLen r.stream r.pos + rbCount r.stream r.pos) % 10 < 9 then
              some (i32OfRaw (r.stream (r.pos + 8 + uaLen r.stream r.pos + rbCount r.stream r.pos)))
            else none],
         response_status := b.response_status ++
           [some ([200, 204, 400, 503, 403].getD
             (r.stream (r.pos + 7 + uaLen r.stream r.pos + rbCount r.stream r.pos +
               sbCount r.stream r.pos) % 5) 0)] },
       ⟨r.stream, r.pos + 8 + uaLen r.stream r.pos + rbCount r.stream r.pos +
         sbCount r.stream r.pos⟩)) ∧
    (20 ≤ uaLen r.stream r.pos ∧ uaLen r.stream r.pos ≤ 99) ∧
    (["GET", "PUT", "POST", "HEAD", "PATCH", "DELETE"].getD
        (r.stream (r.pos + 6 + uaLen r.stream r.pos) % 6) "" ∈
      ["GET", "PUT", "POST", "HEAD", "PATCH", "DELETE"]) ∧
    ([200, 204, 400, 503, 403].getD
        (r.stream (r.pos + 7 + uaLen r.stream r.pos + rbCount r.stream r.pos +
          sbCount r.stream r.pos) % 5) 0 ∈ [200, 204, 400, 403, 503]) ∧
    (-(2 ^ 31) ≤ i32OfRaw (r.stream (r.pos + 4)) ∧ i32OfRaw (r.stream (r.pos + 4)) < 2 ^ 31) ∧
    (∀ j, 97 ≤ (Char.ofNat (97 + r.stream (r.pos + 6 + j) % 25)).toNat ∧
      (Char.ofNat (97 + r.stream (r.pos + 6 + j) % 25)).toNat ≤ 121) := by
  refine ⟨append_row_spec b r host pod service container image t, ⟨?_, ?_⟩, ?_, ?_,
    i32OfRaw_bounds _, ?_⟩
  · unfold uaLen
    omega
  · unfold uaLen
    have := Nat.mod_lt (r.stream (r.pos + 5)) (y := 80) (by norm_num)
    omega
  · have h6 : r.stream (r.pos + 6 + uaLen r.stream r.pos) % 6 < 6 :=
      Nat.mod_lt _ (by norm_num)
    generalize r.stream (r.pos + 6 + uaLen r.stream r.pos) % 6 = mi at h6 ⊢
    interval_cases mi <;> decide
  · have h5 : r.stream (r.pos + 7 + uaLen r.stream r.pos + rbCount r.stream r.pos +
        sbCount r.stream r.pos) % 5 < 5 := Nat.mod_lt _ (by norm_num)
    generalize r.stream (r.pos + 7 + uaLen r.stream r.pos + rbCount r.stream r.pos +
      sbCount r.stream r.pos) % 5 = si at h5 ⊢
    interval_cases si <;> decide
  · intro j
    have ht := toNat_ofNat_lower (r.stream (r.pos + 6 + j))
    have hm : r.stream (r.pos + 6 + j) % 25 < 25 := Nat.mod_lt _ (by norm_num)
    omega

/-- Modelled from the claim wording for C6 (and the spec sentence it
cites): the host identifier as stated there is the hex representation of
the affine transform, padded to 16 digits and suffixed .ec2.internal,
with no further decoration. Defined only for comparison with hostId. -/
def hostIdClaimed (idx : Nat) : String :=
  formatHex16 ((idx * 0x7d87f8ed5c5 + 0x1ec3ca3151468928) % 2 ^ 64) ++ ".ec2.internal"

/-- C6 counterexample: the identifier the code produces at step 0 is not
the bare hex-plus-suffix the claim describes, because the code prefixes
the literal i- to the hex digits. -/
theorem counterexample_host_id_prefix : hostId 0 ≠ hostIdClaimed 0 := by decide

/-- C6 amended: the host identifier at step n is the 016x hex of
n * C1 + C2 (usize arithmetic), prefixed i- and suffixed .ec2.internal,
and consecutive steps yield distinct identifiers. -/
theorem claim_host_id_format (n : Nat) :
    hostId n =
      "i-" ++ formatHex16 ((n * 0x7d87f8ed5c5 + 0x1ec3ca3151468928) % 2 ^ 64) ++
        ".ec2.internal" ∧
    hostId n ≠ hostId (n + 1) :=
  ⟨rfl, hostId_ne_succ n⟩

/-- C7: BatchBuilder::append draws a pod count in 1..14; each pod
identifier is a lowercase string of 30..39 characters; each pod receives
1 or 2 containers; each container receives a row count in 1024..8191;
every row of the j-th container of a pod carries the container name built
from the service and the 0-based index j, and the image is that name
concatenated with the fixed sha256 digest suffix. -/
theorem claim_hierarchy_counts (b : BatchBuilder) (r : Rng) (host service : String) :
    ∃ plan : List (String × List Nat),
      1 ≤ plan.length ∧ plan.length ≤ 14 ∧
      (∀ pr ∈ plan, 30 ≤ pr.1.length ∧ pr.1.length ≤ 39) ∧
      (∀ pr ∈ plan, (pr.2.length = 1 ∨ pr.2.length = 2) ∧
        ∀ k ∈ pr.2, 1024 ≤ k ∧ k ≤ 8191) ∧
      (b.append r host service).1.pod =
        b.pod ++ plan.flatMap (fun pr => List.replicate pr.2.sum (some pr.1)) ∧
      (b.append r host service).1.container =
        b.container ++ plan.flatMap (fun pr =>
          ((List.range pr.2.length).zip pr.2).flatMap fun ik =>
            List.replicate ik.2 (some (containerName service ik.1))) ∧
      (b.append r host service).1.image =
        b.image ++ plan.flatMap (fun pr =>
          ((List.range pr.2.length).zip pr.2).flatMap fun ik =>
            List.replicate ik.2 (some (containerName service ik.1 ++ shaSuffix))) := by
  obtain ⟨plan, a1, a2, a3, _, a5, e1, e2, e3⟩ := append_cols b r host service
  exact ⟨plan, a1, a2, a3, a5, e1, e2, e3⟩

/-- C8: the per-service coin flip comes first: when it yields true the
service is skipped, the builder is untouched and the RNG has advanced by
exactly the one draw the flip consumed. -/
theorem claim_skipped_service_one_draw (host service : String)
    (p : BatchBuilder × Rng) (h : (p.2.genBool 1 2).1 = true) :
    serviceStep host p service = (p.1, ⟨p.2.stream, p.2.pos + 1⟩) ∧
    (p.2.genBool 1 2).2 = ⟨p.2.stream, p.2.pos + 1⟩ :=
  ⟨serviceStep_skip host service p h, rfl⟩

theorem claim_skipped_service_one_draw_witness :
    serviceStep "h" (BatchBuilder.empty, ⟨fun _ => 0, 0⟩) "frontend" =
      (BatchBuilder.empty, ⟨fun _ => 0, 1⟩) ∧
    ((⟨fun _ => 0, 0⟩ : Rng).genBool 1 2).2 = ⟨fun _ => 0, 1⟩ :=
  claim_skipped_service_one_draw "h" "frontend"
    (BatchBuilder.empty, ⟨fun _ => 0, 0⟩) rfl

/-- C9: Generator::next is total: for every reachable state it yields
Some finished batch (the try_new unwrap cannot fail), and when all four
service flips skip, the yielded batch has zero rows in every column. -/
theorem claim_next_total (rng : Rng) (idx : Nat) :
    ∃ batch, (Generator.next ⟨BatchBuilder.schema, rng, idx⟩).1 = some batch ∧
      ((∀ j < 4, rng.stream (rng.pos + j) % 2 = 0) →
        ∀ c ∈ batch.columns, c.length = 0) := by
  refine ⟨_, next_some rng idx, ?_⟩
  intro hskip c hc
  rw [runServices_all_skip (hostId idx) BatchBuilder.empty rng hskip] at hc
  simp only [finishColumns, BatchBuilder.empty] at hc
  fin_cases hc <;> rfl

theorem claim_next_total_witness :
    ∃ batch, (Generator.next ⟨BatchBuilder.schema, ⟨fun _ => 0, 0⟩, 0⟩).1 = some batch ∧
      ∀ c ∈ batch.columns, c.length = 0 := by
  obtain ⟨batch, h1, h2⟩ := claim_next_total ⟨fun _ => 0, 0⟩ 0
  exact ⟨batch, h1, h2 fun j hj => rfl⟩

/-- C10: every character of every random_string output (hence of every
pod identifier from generate_sorted_strings and every user-agent value)
has code point between 97 (a) and 121 (y); the letter z (122) never
occurs, because the character byte is drawn from the half-open range
97..122. -/
theorem claim_lowercase_range :
    (∀ (r : Rng) (lo hi : Nat), ∀ c ∈ (random_string r lo hi).1.data,
      97 ≤ c.toNat ∧ c.toNat ≤ 121 ∧ c ≠ 'z') ∧
    (∀ (r : Rng) (count lo hi : Nat), ∀ s ∈ (generate_sorted_strings r count lo hi).1,
      ∀ c ∈ s.data, 97 ≤ c.toNat ∧ c.toNat ≤ 121 ∧ c ≠ 'z') := by
  refine ⟨random_string_chars, ?_⟩
  intro r count lo hi s hs c hc
  rw [generate_sorted_strings_mem] at hs
  obtain ⟨r1, rfl⟩ := randomStrings_mem_exists lo hi count r s hs
  exact random_string_chars r1 lo hi c hc

end AccessLog
